import Mathlib

/-!
Shallow embedding of the BART tree-mutation engine of
src/pymc3/bart/bart.py, together with proofs about its behaviour.

Modelling conventions:
- float64 values of the design matrix X are modelled as Option over a
  linear order: `Option.none` is the NaN sentinel, `some a` a non-NaN
  value.  The engine only ever compares X entries, so a linear order on
  the non-NaN values captures exactly the reference comparison
  semantics, with any comparison against NaN evaluating to false.
- response values and sampler cache contents (the base uniforms from
  np.random.random) are exact rationals; the leaf-value posterior of
  ConjugateBART, which takes a square root, is modelled over the reals.
- numpy index arrays are Lean lists of natural numbers; boolean-mask
  selection (X[idx][mask]) becomes List.filter, which preserves order
  exactly as numpy fancy indexing does.
- exceptions (IndexError on list indexing, pop from an empty cache)
  are modelled by Option-valued functions returning Option.none.
-/

namespace PyMC3Bart

/-- Comparison x <= v between a possibly-NaN float (left) and a non-NaN
threshold, as evaluated by numpy: any comparison against NaN is false.
This is the boolean mask built in BaseBART.get_new_idx_data_points. -/
def fle {α : Type} [LinearOrder α] : Option α → α → Bool
  | Option.none, _ => false
  | some a, v => decide (a ≤ v)

/-- x_j = self.X[idx_data_points, j]; x_j = x_j[~np.isnan(x_j)] :
the column j of X restricted to the given rows, with NaN entries
dropped, in row order. -/
def colValues {α : Type} (X : ℕ → ℕ → Option α) (rows : List ℕ) (j : ℕ) : List α :=
  rows.filterMap (fun i => X i j)

/-- The scan `for i in range(1, len(x_j)): if x_j[i-1] != x_j[i]: ... break`
of BaseBART.get_available_predictors: true iff some adjacent pair of the
list differs. -/
def hasAdjacentDiff {α : Type} [DecidableEq α] : List α → Bool
  | [] => false
  | [_] => false
  | a :: b :: rest => a != b || hasAdjacentDiff (b :: rest)

/-- BaseBART.get_available_predictors (bart.py lines 137-146): the column
indices j < number_variates whose NaN-stripped restriction to the rows
has two differing adjacent entries, in increasing column order. -/
def BaseBART.get_available_predictors {α : Type} [LinearOrder α]
    (X : ℕ → ℕ → Option α) (number_variates : ℕ) (rows : List ℕ) : List ℕ :=
  (List.range number_variates).filter
    (fun j => hasAdjacentDiff (colValues X rows j))

/-- np.unique on a list of non-NaN values: the sorted list of distinct
values. -/
def sortedUnique {α : Type} [LinearOrder α] (l : List α) : List α :=
  List.insertionSort (· ≤ ·) l.dedup

/-- BaseBART.get_available_splitting_rules (bart.py lines 148-154): the
sorted distinct non-NaN values of column j over the rows, with the last
(largest) value dropped (`values[:-1]`).  The accompanying first-occurrence
index array of np.unique is discarded by the only caller (grow_tree), so
it is not modelled. -/
def BaseBART.get_available_splitting_rules {α : Type} [LinearOrder α]
    (X : ℕ → ℕ → Option α) (rows : List ℕ) (idx_split_variable : ℕ) : List α :=
  (sortedUnique (colValues X rows idx_split_variable)).dropLast

/-- BaseBART.get_new_idx_data_points (bart.py lines 201-211): rows whose
column value satisfies the mask `X[rows, var] <= split_value` on the left,
rows satisfying the complementary mask `~(X[rows, var] <= split_value)`
on the right, each in original row order. -/
def BaseBART.get_new_idx_data_points {α : Type} [LinearOrder α]
    (X : ℕ → ℕ → Option α) (rows : List ℕ) (idx_split_variable : ℕ)
    (split_value : α) : List ℕ × List ℕ :=
  (rows.filter (fun i => fle (X i idx_split_variable) split_value),
   rows.filter (fun i => !(fle (X i idx_split_variable) split_value)))

/-! ### Response transform (BaseBART.transform_Y / un_transform_Y) -/

/-- The validated transform argument: Python None, the string regression,
or the string classification. -/
inductive Transform : Type
  | noTransform
  | regression
  | classification
deriving DecidableEq

/-- Y.min() on a nonempty list (0 for the empty list, which numpy
rejects). -/
def listMin : List ℚ → ℚ
  | [] => 0
  | a :: r => r.foldl min a

/-- Y.max() on a nonempty list (0 for the empty list, which numpy
rejects). -/
def listMax : List ℚ → ℚ
  | [] => 0
  | a :: r => r.foldl max a

/-- self.Y_transf_max_Y_transf_min_half_diff as set in BaseBART.__init__
(bart.py lines 60-65): 0.5 for regression, 3.0 for classification, half
the observed Y range when transform is None. -/
def halfRange (t : Transform) (Y_min Y_max : ℚ) : ℚ :=
  match t with
  | Transform.regression => 1/2
  | Transform.classification => 3
  | Transform.noTransform => (Y_max - Y_min) / 2

/-- BaseBART.transform_Y (bart.py lines 99-116), elementwise.  The guard
`if self.transform:` is falsy exactly for transform None, in which case Y
is returned unchanged. -/
def BaseBART.transform_Y (t : Transform) (Y_min Y_max : ℚ) (y : ℚ) : ℚ :=
  match t with
  | Transform.noTransform => y
  | _ =>
      (y - Y_min) / (Y_max - Y_min) * (halfRange t Y_min Y_max * 2)
        - halfRange t Y_min Y_max

/-- BaseBART.un_transform_Y (bart.py lines 118-123), elementwise. -/
def BaseBART.un_transform_Y (t : Transform) (Y_min Y_max : ℚ) (y : ℚ) : ℚ :=
  match t with
  | Transform.noTransform => y
  | _ =>
      (y + halfRange t Y_min Y_max) * (Y_max - Y_min)
        / (halfRange t Y_min Y_max * 2) + Y_min

/-! ### DiscreteUniformDistributionSampler (bart.py lines 378-394) -/

/-- Python int() applied to a float value: truncation toward zero. -/
def pyInt (q : ℚ) : ℤ :=
  if q < 0 then ⌈q⌉ else ⌊q⌋

/-- The value computed by DiscreteUniformDistributionSampler.sample for a
popped base uniform u: int(lower_limit + (upper_limit - lower_limit) * u). -/
def duSampleValue (lower_limit upper_limit : ℤ) (u : ℚ) : ℤ :=
  pyInt ((lower_limit : ℚ) + ((upper_limit : ℚ) - (lower_limit : ℚ)) * u)

/-- State of a DiscreteUniformDistributionSampler: the cache list, the
configured cache size, and the underlying np.random.random stream (an
infinite supply of base uniforms, of which `drawn` have been consumed). -/
structure DUSampler : Type where
  cacheSize : ℕ
  cache : List ℚ
  supply : ℕ → ℚ
  drawn : ℕ

/-- DiscreteUniformDistributionSampler.refresh_cache: draw cacheSize fresh
base uniforms from the stream. -/
def DUSampler.refresh_cache (s : DUSampler) : DUSampler :=
  { s with
    cache := (List.range s.cacheSize).map (fun t => s.supply (s.drawn + t)),
    drawn := s.drawn + s.cacheSize }

/-- The sampler state from which sample pops: the cache is refreshed
first when it is empty (`if len(self._cache) == 0: self.refresh_cache()`). -/
def DUSampler.pop_source (s : DUSampler) : DUSampler :=
  if s.cache.isEmpty then s.refresh_cache else s

/-- DiscreteUniformDistributionSampler.sample (bart.py lines 388-391):
refresh when the cache is empty, pop the last cached uniform (list.pop()),
and truncate lower + (upper - lower) * u to an int.  Popping from a still
empty cache (cache_size = 0) is an IndexError, modelled as Option.none. -/
def DUSampler.sample (s : DUSampler) (lower_limit upper_limit : ℤ) :
    Option (ℤ × DUSampler) :=
  match s.pop_source.cache.getLast? with
  | Option.none => Option.none
  | some u =>
      some (duSampleValue lower_limit upper_limit u,
            { s.pop_source with cache := s.pop_source.cache.dropLast })

/-! ### Constructor validation order (BaseBART/ConjugateBART __init__) -/

/-- The distinct BARTParamsError conditions raised by the constructors
(value-range checks; the isinstance type checks of the Python code have no
counterpart on already-typed parameters). -/
inductive BARTParamsError : Type
  | xYLengthMismatch
  | mNotPositive
  | alphaOutOfRange
  | betaNegative
  | invalidTreeSampler
  | invalidTransform
  | nuLessThanThree
  | qOutOfRange
  | kNotPositive
deriving DecidableEq

/-- The tree_sampler constructor argument: one of the two accepted strings,
or any other string. -/
inductive TreeSamplerArg : Type
  | growPrune
  | particleGibbs
  | invalidSampler
deriving DecidableEq

/-- The value-checkable constructor parameters of BaseBART.  The transform
argument is `some t` for an accepted value (None, regression or
classification) and `Option.none` for any other string. -/
structure BaseParams : Type where
  num_X_rows : ℕ
  num_Y_rows : ℕ
  m : ℤ
  alpha : ℚ
  beta : ℚ
  tree_sampler : TreeSamplerArg
  transform : Option Transform
deriving DecidableEq

/-- The first BARTParamsError raised by the checks of BaseBART.__init__
(bart.py lines 19-48), in source order. -/
def firstBaseViolation (p : BaseParams) : Option BARTParamsError :=
  if p.num_X_rows ≠ p.num_Y_rows then some BARTParamsError.xYLengthMismatch
  else if p.m < 1 then some BARTParamsError.mNotPositive
  else if p.alpha ≤ 0 ∨ 1 ≤ p.alpha then some BARTParamsError.alphaOutOfRange
  else if p.beta < 0 then some BARTParamsError.betaNegative
  else if p.tree_sampler = TreeSamplerArg.invalidSampler then
    some BARTParamsError.invalidTreeSampler
  else if p.transform = Option.none then some BARTParamsError.invalidTransform
  else Option.none

/-- Constructor parameters of ConjugateBART: the base parameters plus the
sigma-prior and leaf-prior hyperparameters. -/
structure ConjParams : Type where
  base : BaseParams
  nu : ℚ
  q : ℚ
  k : ℚ
deriving DecidableEq

/-- The first BARTParamsError raised by the checks that ConjugateBART's
__init__ performs after super().__init__ (bart.py lines 293-306), in
source order. -/
def firstConjViolation (p : ConjParams) : Option BARTParamsError :=
  if p.nu < 3 then some BARTParamsError.nuLessThanThree
  else if p.q ≤ 0 ∨ 1 ≤ p.q then some BARTParamsError.qOutOfRange
  else if p.k ≤ 0 then some BARTParamsError.kNotPositive
  else Option.none

/-- The externally visible steps a constructor run performs, in order:
raising a BARTParamsError, allocating the two buffered samplers
(bart.py lines 76-77), or allocating the m initial trees (lines 87-91). -/
inductive InitAction : Type
  | raiseError (e : BARTParamsError)
  | allocSamplers
  | allocTrees
deriving DecidableEq

/-- The action trace of BaseBART.__init__: all value checks run first
(lines 19-48); only afterwards are the samplers and the initial trees
allocated. -/
def BaseBART.init_trace (p : BaseParams) : List InitAction :=
  match firstBaseViolation p with
  | some e => [InitAction.raiseError e]
  | Option.none => [InitAction.allocSamplers, InitAction.allocTrees]

/-- The action trace of ConjugateBART.__init__: super().__init__ runs in
full first (bart.py line 292), then the nu/q/k checks (lines 293-306). -/
def ConjugateBART.init_trace (p : ConjParams) : List InitAction :=
  match firstBaseViolation p.base with
  | some e => [InitAction.raiseError e]
  | Option.none =>
      [InitAction.allocSamplers, InitAction.allocTrees] ++
        (match firstConjViolation p with
         | some e => [InitAction.raiseError e]
         | Option.none => [])

/-- True iff the trace contains a raised BARTParamsError. -/
def hasRaise : List InitAction → Bool
  | [] => false
  | InitAction.raiseError _ :: _ => true
  | _ :: rest => hasRaise rest

/-- True iff some allocation step occurs strictly before some raised
BARTParamsError in the trace. -/
def allocBeforeRaise : List InitAction → Bool
  | [] => false
  | InitAction.raiseError _ :: rest => allocBeforeRaise rest
  | _ :: rest => hasRaise rest || allocBeforeRaise rest

/-! ### Tree structure

Modelled from the spec: the Tree, SplitNode and LeafNode classes live in
pymc3/bart/tree.py, which is not part of the sources here.  Per the spec,
a tree is an index-addressed collection of nodes (root 0, left child of i
at 2i+1, right child at 2i+2); each node carries its assigned data-point
indices; a split node carries the chosen predictor and threshold, a leaf
node a scalar value; grow replaces a leaf with a split node plus two
fresh leaf children at the child indices. -/

/-- A tree node: SplitNode with predictor index and threshold, or LeafNode
with a value.  Both carry idx_data_points. -/
inductive Node (α β : Type) : Type
  | split (idx_split_variable : ℕ) (split_value : α) (idx_data_points : List ℕ)
  | leaf (value : β) (idx_data_points : List ℕ)
deriving DecidableEq

/-- The idx_data_points common to both node variants. -/
def Node.idx_data_points {α β : Type} : Node α β → List ℕ
  | Node.split _ _ d => d
  | Node.leaf _ d => d

/-- Modelled from the spec: an index-addressed binary tree, a mapping from
integer index to Node. -/
structure Tree (α β : Type) : Type where
  nodes : List (ℕ × Node α β)
deriving DecidableEq

/-- Modelled from the spec: Tree.get_node, lookup of the node stored at an
index. -/
def Tree.get_node {α β : Type} (t : Tree α β) (index : ℕ) : Option (Node α β) :=
  t.nodes.lookup index

/-- Modelled from the spec: Tree.grow_tree, replacing the node at
index_leaf_node with the given split node and installing the two leaf
children at indices 2i+1 and 2i+2. -/
def Tree.grow_tree {α β : Type} (t : Tree α β) (index_leaf_node : ℕ)
    (new_split_node new_left_node new_right_node : Node α β) : Tree α β :=
  ⟨(index_leaf_node, new_split_node) ::
     (2 * index_leaf_node + 1, new_left_node) ::
     (2 * index_leaf_node + 2, new_right_node) ::
     t.nodes.filter (fun pr => pr.1 ≠ index_leaf_node)⟩

/-! ### BaseBART.grow_tree (bart.py lines 156-189) -/

/-- List indexing with a Python int subscript: nonnegative subscripts
index from the front, negative subscripts from the back, out-of-range
subscripts raise IndexError (Option.none). -/
def pyGet {α : Type} (l : List α) (i : ℤ) : Option α :=
  if 0 ≤ i then l[i.toNat]?
  else if (l.length : ℤ) + i < 0 then Option.none
  else l[((l.length : ℤ) + i).toNat]?

/-- BaseBART.grow_tree.  draw_leaf_value is abstract in BaseBART (it is
overridden by the BART and ConjugateBART variants) and is therefore a
function parameter here, threading its own state of type σ (the normal
sampler cache and the residual bookkeeping it reads).  The discrete
uniform sampler state is threaded explicitly.  Returns Option.none on an
exception, some (false, unchanged state) when no predictor is available,
and some (true, mutated tree, updated sampler states) on success. -/
def BaseBART.grow_tree {α β σ : Type} [LinearOrder α]
    (draw_leaf_value : Tree α β → List ℕ → σ → β × σ)
    (X : ℕ → ℕ → Option α) (number_variates : ℕ)
    (tree : Tree α β) (index_leaf_node : ℕ)
    (du : DUSampler) (extra : σ) :
    Option (Bool × Tree α β × DUSampler × σ) :=
  match tree.get_node index_leaf_node with
  | Option.none => Option.none
  | some current_node =>
    let rows := current_node.idx_data_points
    let available_predictors :=
      BaseBART.get_available_predictors X number_variates rows
    if available_predictors.isEmpty then some (false, tree, du, extra)
    else
      match du.sample 0 available_predictors.length with
      | Option.none => Option.none
      | some (index_selected_predictor, du1) =>
        match pyGet available_predictors index_selected_predictor with
        | Option.none => Option.none
        | some selected_predictor =>
          let available_splitting_rules :=
            BaseBART.get_available_splitting_rules X rows selected_predictor
          match du1.sample 0 available_splitting_rules.length with
          | Option.none => Option.none
          | some (index_selected_splitting_rule, du2) =>
            match pyGet available_splitting_rules index_selected_splitting_rule with
            | Option.none => Option.none
            | some selected_splitting_rule =>
              let lr := BaseBART.get_new_idx_data_points X rows
                selected_predictor selected_splitting_rule
              let lres := draw_leaf_value tree lr.1 extra
              let rres := draw_leaf_value tree lr.2 lres.2
              some (true,
                tree.grow_tree index_leaf_node
                  (Node.split selected_predictor selected_splitting_rule rows)
                  (Node.leaf lres.1 lr.1)
                  (Node.leaf rres.1 lr.2),
                du2, rres.2)

/-! ### ConjugateBART.draw_leaf_value (bart.py lines 334-347)

The residual vector R_j = self.get_residuals(tree) is an input here: it
is sum_trees_output - tree.predict_output(...), whose tree-prediction
half lives in the missing tree.py.  The standard normal draw z from the
NormalDistributionSampler is likewise an input. -/

/-- self.prior_sigma_mu as set in ConjugateBART.__init__ (bart.py line
316): half_range / (k * sqrt(m)). -/
noncomputable def ConjugateBART.prior_sigma_mu (half_range k : ℝ) (m : ℕ) : ℝ :=
  half_range / (k * Real.sqrt m)

/-- ConjugateBART.draw_leaf_value: the conjugate posterior draw for the
leaf over the given rows, given the residual vector R_j and the standard
normal draw z.  np.power(x, 0.5) is the real square root on the
nonnegative quantities it is applied to. -/
noncomputable def ConjugateBART.draw_leaf_value
    (prior_sigma_mu current_sigma : ℝ) (m : ℕ)
    (R_j : ℕ → ℝ) (idx_data_points : List ℕ) (z : ℝ) : ℝ :=
  let current_num_observations : ℝ := idx_data_points.length
  let node_responses := idx_data_points.map R_j
  let node_average_responses := node_responses.sum / current_num_observations
  let prior_var := prior_sigma_mu ^ 2
  let likelihood_var := current_sigma ^ 2 / current_num_observations
  let likelihood_mean := node_average_responses
  let posterior_variance := 1 / (1 / prior_var + 1 / likelihood_var)
  let posterior_mean := likelihood_mean * (prior_var / (likelihood_var + prior_var))
  posterior_mean + z * Real.sqrt (posterior_variance / m)

/-- The leaf draw as the spec states it: with prior_var =
(half_range/(k*sqrt m))^2, likelihood_var = sigma^2/n and
likelihood_mean the residual mean, the draw is posterior_mean +
z*sqrt(posterior_var/m) with posterior_var = 1/(1/prior_var +
1/likelihood_var) and posterior_mean = likelihood_mean *
prior_var/(likelihood_var + prior_var). -/
noncomputable def conjDrawLeafValueSpec
    (half_range k current_sigma : ℝ) (m : ℕ)
    (R_j : ℕ → ℝ) (idx_data_points : List ℕ) (z : ℝ) : ℝ :=
  let n : ℝ := idx_data_points.length
  let prior_var := (half_range / (k * Real.sqrt m)) ^ 2
  let likelihood_var := current_sigma ^ 2 / n
  let likelihood_mean := (idx_data_points.map R_j).sum / n
  let posterior_var := 1 / (1 / prior_var + 1 / likelihood_var)
  let posterior_mean := likelihood_mean * prior_var / (likelihood_var + prior_var)
  posterior_mean + z * Real.sqrt (posterior_var / m)

/-! ### Helper lemmas -/

/-- The adjacent-difference scan finds a differing adjacent pair iff the
list has two distinct members. -/
theorem hasAdjacentDiff_iff {α : Type} [DecidableEq α] (l : List α) :
    hasAdjacentDiff l = true ↔ ∃ a ∈ l, ∃ b ∈ l, a ≠ b := by
  induction l with
  | nil => simp [hasAdjacentDiff]
  | cons a t ih =>
    cases t with
    | nil => simp [hasAdjacentDiff]
    | cons b r =>
      rw [hasAdjacentDiff]
      simp only [Bool.or_eq_true, bne_iff_ne]
      constructor
      · rintro (hab | hrec)
        · exact ⟨a, by simp, b, by simp, hab⟩
        · obtain ⟨x, hx, y, hy, hxy⟩ := ih.mp hrec
          exact ⟨x, List.mem_cons_of_mem _ hx, y, List.mem_cons_of_mem _ hy, hxy⟩
      · rintro ⟨x, hx, y, hy, hxy⟩
        by_cases hab : a = b
        · right
          apply ih.mpr
          have hx2 : x ∈ b :: r := by
            rcases List.mem_cons.mp hx with h | h
            · rw [h, hab]; exact List.mem_cons_self b r
            · exact h
          have hy2 : y ∈ b :: r := by
            rcases List.mem_cons.mp hy with h | h
            · rw [h, hab]; exact List.mem_cons_self b r
            · exact h
          exact ⟨x, hx2, y, hy2, hxy⟩
        · exact Or.inl hab

/-- Membership in get_available_predictors unfolded. -/
theorem mem_get_available_predictors {α : Type} [LinearOrder α]
    (X : ℕ → ℕ → Option α) (P : ℕ) (rows : List ℕ) (j : ℕ) :
    j ∈ BaseBART.get_available_predictors X P rows ↔
      j < P ∧ hasAdjacentDiff (colValues X rows j) = true := by
  simp [BaseBART.get_available_predictors, List.mem_filter, List.mem_range]

/-- Membership in colValues: the non-NaN value b occurs in column j at
some row of the row set. -/
theorem mem_colValues {α : Type} (X : ℕ → ℕ → Option α) (rows : List ℕ)
    (j : ℕ) (b : α) :
    b ∈ colValues X rows j ↔ ∃ i ∈ rows, X i j = some b := by
  simp [colValues, List.mem_filterMap]

theorem mem_sortedUnique {α : Type} [LinearOrder α] (l : List α) (a : α) :
    a ∈ sortedUnique l ↔ a ∈ l := by
  unfold sortedUnique
  rw [(List.perm_insertionSort (· ≤ ·) l.dedup).mem_iff, List.mem_dedup]

theorem sortedUnique_sorted {α : Type} [LinearOrder α] (l : List α) :
    (sortedUnique l).Sorted (· ≤ ·) :=
  List.sorted_insertionSort (· ≤ ·) l.dedup

theorem sortedUnique_nodup {α : Type} [LinearOrder α] (l : List α) :
    (sortedUnique l).Nodup :=
  (List.perm_insertionSort (· ≤ ·) l.dedup).nodup_iff.mpr (List.nodup_dedup l)

/-- In a list sorted by ≤, every member is at most the last element. -/
theorem sorted_le_getLast {α : Type} [LinearOrder α] (l : List α)
    (h : l.Sorted (· ≤ ·)) (x : α) (hx : x ∈ l) (hne : l ≠ []) :
    x ≤ l.getLast hne := by
  induction l with
  | nil => cases hx
  | cons a t ih =>
    cases t with
    | nil => simp at hx; simp [hx, List.getLast]
    | cons b t2 =>
      rw [List.getLast_cons (by simp)]
      rcases List.mem_cons.mp hx with h1 | h2
      · subst h1
        exact List.rel_of_sorted_cons h _ (List.getLast_mem _)
      · exact ih (List.Sorted.of_cons h) h2 (by simp)

/-- For a duplicate-free list, membership in dropLast is membership in the
list minus the last element. -/
theorem mem_dropLast_iff {α : Type} [DecidableEq α] (l : List α)
    (hl : l.Nodup) (hne : l ≠ []) (x : α) :
    x ∈ l.dropLast ↔ x ∈ l ∧ x ≠ l.getLast hne := by
  have hsplit : l.dropLast ++ [l.getLast hne] = l := List.dropLast_append_getLast hne
  constructor
  · intro hx
    refine ⟨List.dropLast_subset l hx, ?_⟩
    intro heq
    have hnd : (l.dropLast ++ [l.getLast hne]).Nodup := by rw [hsplit]; exact hl
    exact (List.nodup_append.mp hnd).2.2 hx (heq ▸ List.mem_singleton_self _)
  · rintro ⟨hx, hne2⟩
    have hx2 : x ∈ l.dropLast ++ [l.getLast hne] := by rw [hsplit]; exact hx
    rcases List.mem_append.mp hx2 with h1 | h2
    · exact h1
    · exact absurd (List.mem_singleton.mp h2) hne2

/-- Membership in get_available_splitting_rules: exactly the non-NaN
column values that are strictly below some other non-NaN column value. -/
theorem mem_splitting_rules_iff {α : Type} [LinearOrder α]
    (X : ℕ → ℕ → Option α) (rows : List ℕ) (j : ℕ) (v : α) :
    v ∈ BaseBART.get_available_splitting_rules X rows j ↔
      v ∈ colValues X rows j ∧ ∃ w ∈ colValues X rows j, v < w := by
  unfold BaseBART.get_available_splitting_rules
  constructor
  · intro hv
    have hvs : v ∈ sortedUnique (colValues X rows j) := List.dropLast_subset _ hv
    have hne : sortedUnique (colValues X rows j) ≠ [] := List.ne_nil_of_mem hvs
    have hlast_mem := List.getLast_mem hne
    have hv_ne : v ≠ (sortedUnique (colValues X rows j)).getLast hne :=
      ((mem_dropLast_iff _ (sortedUnique_nodup _) hne v).mp hv).2
    have hv_le : v ≤ (sortedUnique (colValues X rows j)).getLast hne :=
      sorted_le_getLast _ (sortedUnique_sorted _) v hvs hne
    exact ⟨(mem_sortedUnique _ _).mp hvs,
      (sortedUnique (colValues X rows j)).getLast hne,
      (mem_sortedUnique _ _).mp hlast_mem, lt_of_le_of_ne hv_le hv_ne⟩
  · rintro ⟨hv, w, hw, hvw⟩
    have hvs : v ∈ sortedUnique (colValues X rows j) := (mem_sortedUnique _ _).mpr hv
    have hws : w ∈ sortedUnique (colValues X rows j) := (mem_sortedUnique _ _).mpr hw
    have hne : sortedUnique (colValues X rows j) ≠ [] := List.ne_nil_of_mem hvs
    have hwlast : w ≤ (sortedUnique (colValues X rows j)).getLast hne :=
      sorted_le_getLast _ (sortedUnique_sorted _) w hws hne
    have hv_ne : v ≠ (sortedUnique (colValues X rows j)).getLast hne := by
      intro he
      exact absurd (lt_of_lt_of_le hvw hwlast) (by rw [← he]; exact lt_irrefl v)
    exact (mem_dropLast_iff _ (sortedUnique_nodup _) hne v).mpr ⟨hvs, hv_ne⟩

/-- An available predictor always has at least one splitting rule. -/
theorem splitting_rules_ne_nil {α : Type} [LinearOrder α]
    (X : ℕ → ℕ → Option α) (P : ℕ) (rows : List ℕ) (j : ℕ)
    (hj : j ∈ BaseBART.get_available_predictors X P rows) :
    BaseBART.get_available_splitting_rules X rows j ≠ [] := by
  have h2 := ((mem_get_available_predictors X P rows j).mp hj).2
  obtain ⟨a, ha, b, hb, hab⟩ := (hasAdjacentDiff_iff _).mp h2
  rcases lt_or_gt_of_ne hab with h | h
  · exact List.ne_nil_of_mem ((mem_splitting_rules_iff X rows j a).mpr ⟨ha, b, hb, h⟩)
  · exact List.ne_nil_of_mem ((mem_splitting_rules_iff X rows j b).mpr ⟨hb, a, ha, h⟩)

/-- Value and bounds of the discrete uniform draw when the lower limit is
nonnegative: truncation toward zero agrees with floor, and the result
lies in the half-open interval. -/
theorem duSampleValue_spec (lower upper : ℤ) (u : ℚ)
    (hl : 0 ≤ lower) (hlu : lower < upper) (hu0 : 0 ≤ u) (hu1 : u < 1) :
    duSampleValue lower upper u =
      ⌊(lower : ℚ) + ((upper : ℚ) - (lower : ℚ)) * u⌋ ∧
    lower ≤ duSampleValue lower upper u ∧
    duSampleValue lower upper u < upper := by
  have hd : (0 : ℚ) ≤ (upper : ℚ) - (lower : ℚ) := by
    have h1 : (lower : ℚ) ≤ (upper : ℚ) := by exact_mod_cast le_of_lt hlu
    linarith
  have hl0 : (0 : ℚ) ≤ (lower : ℚ) := by exact_mod_cast hl
  have hv0 : (0 : ℚ) ≤ (lower : ℚ) + ((upper : ℚ) - (lower : ℚ)) * u := by
    nlinarith
  have heq : duSampleValue lower upper u =
      ⌊(lower : ℚ) + ((upper : ℚ) - (lower : ℚ)) * u⌋ := by
    unfold duSampleValue pyInt
    rw [if_neg (not_lt.mpr hv0)]
  refine ⟨heq, ?_, ?_⟩
  · rw [heq]
    apply Int.le_floor.mpr
    have hmul : (0 : ℚ) ≤ ((upper : ℚ) - (lower : ℚ)) * u := mul_nonneg hd hu0
    linarith
  · rw [heq]
    apply Int.floor_lt.mpr
    have hdpos : (0 : ℚ) < (upper : ℚ) - (lower : ℚ) := by
      have h1 : (lower : ℚ) < (upper : ℚ) := by exact_mod_cast hlu
      linarith
    nlinarith [mul_lt_mul_of_pos_left hu1 hdpos]

/-- A well-formed sampler (all cache and stream values in [0,1), positive
cache size) successfully samples from [0, n) for 0 < n, and stays
well-formed. -/
theorem DUSampler.sample_wf (s : DUSampler) (n : ℤ)
    (hc : ∀ u ∈ s.cache, 0 ≤ u ∧ u < 1)
    (hsup : ∀ t, 0 ≤ s.supply t ∧ s.supply t < 1)
    (hsize : 0 < s.cacheSize) (hn : 0 < n) :
    ∃ i s2, s.sample 0 n = some (i, s2) ∧ 0 ≤ i ∧ i < n ∧
      (∀ u ∈ s2.cache, 0 ≤ u ∧ u < 1) ∧ s2.supply = s.supply ∧
      s2.cacheSize = s.cacheSize := by
  have hc1 : ∀ u ∈ s.pop_source.cache, 0 ≤ u ∧ u < 1 := by
    unfold DUSampler.pop_source
    split
    · intro u hu
      simp only [DUSampler.refresh_cache, List.mem_map] at hu
      obtain ⟨t, _, rfl⟩ := hu
      exact hsup _
    · exact hc
  have hne : s.pop_source.cache ≠ [] := by
    unfold DUSampler.pop_source
    split
    · simp only [DUSampler.refresh_cache]
      intro h
      rw [List.map_eq_nil_iff, List.range_eq_nil] at h
      omega
    · rename_i h
      exact fun hnil => h (List.isEmpty_iff.mpr hnil)
  have hsupeq : s.pop_source.supply = s.supply := by
    unfold DUSampler.pop_source
    split <;> rfl
  have hsizeeq : s.pop_source.cacheSize = s.cacheSize := by
    unfold DUSampler.pop_source
    split <;> rfl
  have hu : s.pop_source.cache.getLast? = some (s.pop_source.cache.getLast hne) :=
    List.getLast?_eq_getLast s.pop_source.cache hne
  have humem : s.pop_source.cache.getLast hne ∈ s.pop_source.cache :=
    List.getLast_mem hne
  obtain ⟨hub0, hub1⟩ := hc1 _ humem
  have hspec := duSampleValue_spec 0 n (s.pop_source.cache.getLast hne)
    le_rfl hn hub0 hub1
  refine ⟨duSampleValue 0 n (s.pop_source.cache.getLast hne),
    { s.pop_source with cache := s.pop_source.cache.dropLast },
    ?_, hspec.2.1, hspec.2.2, ?_, hsupeq, hsizeeq⟩
  · unfold DUSampler.sample
    rw [hu]
  · intro u2 hu2
    exact hc1 u2 (List.dropLast_subset _ hu2)

/-- Indexing a list with a nonnegative in-range Python subscript succeeds
and yields a member. -/
theorem pyGet_mem {α : Type} (l : List α) (i : ℤ)
    (h0 : 0 ≤ i) (hlt : i < (l.length : ℤ)) :
    ∃ a, pyGet l i = some a ∧ a ∈ l := by
  have hn : i.toNat < l.length := by omega
  refine ⟨l[i.toNat], ?_, List.getElem_mem hn⟩
  unfold pyGet
  rw [if_pos h0, List.getElem?_eq_getElem hn]

/-- The running minimum of a fold is a lower bound for the seed and every
list member. -/
theorem foldl_min_bounds (l : List ℚ) (a : ℚ) :
    l.foldl min a ≤ a ∧ ∀ y ∈ l, l.foldl min a ≤ y := by
  induction l generalizing a with
  | nil => exact ⟨le_refl a, by simp⟩
  | cons b t ih =>
    refine ⟨?_, ?_⟩
    · calc (b :: t).foldl min a = t.foldl min (min a b) := by simp [List.foldl]
        _ ≤ min a b := (ih (min a b)).1
        _ ≤ a := min_le_left a b
    · intro y hy
      rcases List.mem_cons.mp hy with h | h
      · calc (b :: t).foldl min a = t.foldl min (min a b) := by simp [List.foldl]
          _ ≤ min a b := (ih (min a b)).1
          _ ≤ b := min_le_right a b
          _ = y := h.symm
      · calc (b :: t).foldl min a = t.foldl min (min a b) := by simp [List.foldl]
          _ ≤ y := (ih (min a b)).2 y h

/-- The running maximum of a fold is an upper bound for the seed and every
list member. -/
theorem foldl_max_bounds (l : List ℚ) (a : ℚ) :
    a ≤ l.foldl max a ∧ ∀ y ∈ l, y ≤ l.foldl max a := by
  induction l generalizing a with
  | nil => exact ⟨le_refl a, by simp⟩
  | cons b t ih =>
    refine ⟨?_, ?_⟩
    · calc a ≤ max a b := le_max_left a b
        _ ≤ t.foldl max (max a b) := (ih (max a b)).1
        _ = (b :: t).foldl max a := by simp [List.foldl]
    · intro y hy
      rcases List.mem_cons.mp hy with h | h
      · calc y = b := h
          _ ≤ max a b := le_max_right a b
          _ ≤ t.foldl max (max a b) := (ih (max a b)).1
          _ = (b :: t).foldl max a := by simp [List.foldl]
      · calc y ≤ t.foldl max (max a b) := (ih (max a b)).2 y h
          _ = (b :: t).foldl max a := by simp [List.foldl]

/-- Y.min() bounds every element of Y from below. -/
theorem listMin_le (Y : List ℚ) (y : ℚ) (hy : y ∈ Y) : listMin Y ≤ y := by
  cases Y with
  | nil => cases hy
  | cons a r =>
    rcases List.mem_cons.mp hy with h | h
    · rw [h] at hy ⊢
      exact (foldl_min_bounds r a).1
    · exact (foldl_min_bounds r a).2 y h

/-- Y.max() bounds every element of Y from above. -/
theorem le_listMax (Y : List ℚ) (y : ℚ) (hy : y ∈ Y) : y ≤ listMax Y := by
  cases Y with
  | nil => cases hy
  | cons a r =>
    rcases List.mem_cons.mp hy with h | h
    · rw [h]
      exact (foldl_max_bounds r a).1
    · exact (foldl_max_bounds r a).2 y h

/-! ### Claim theorems -/

/-- Claim C1: for every leaf grown by grow_tree — that is, for any row set
and any predictor j and threshold v that grow_tree can select (j among
get_available_predictors, v among get_available_splitting_rules) — the
left/right row sets of get_new_idx_data_points partition the rows exactly:
their concatenation is a permutation of the rows, they are disjoint, both
are nonempty, the left set holds exactly the rows whose selected-predictor
value is <= v, and every NaN row lands on the right. -/
theorem C1_grow_partition (α : Type) [LinearOrder α]
    (X : ℕ → ℕ → Option α) (P : ℕ) (rows : List ℕ) (j : ℕ) (v : α)
    (hj : j ∈ BaseBART.get_available_predictors X P rows)
    (hv : v ∈ BaseBART.get_available_splitting_rules X rows j) :
    List.Perm ((BaseBART.get_new_idx_data_points X rows j v).1 ++
        (BaseBART.get_new_idx_data_points X rows j v).2) rows ∧
    (∀ i, i ∈ (BaseBART.get_new_idx_data_points X rows j v).1 →
      i ∉ (BaseBART.get_new_idx_data_points X rows j v).2) ∧
    (BaseBART.get_new_idx_data_points X rows j v).1 ≠ [] ∧
    (BaseBART.get_new_idx_data_points X rows j v).2 ≠ [] ∧
    (∀ i, i ∈ (BaseBART.get_new_idx_data_points X rows j v).1 ↔
      i ∈ rows ∧ fle (X i j) v = true) ∧
    (∀ i ∈ rows, X i j = Option.none →
      i ∈ (BaseBART.get_new_idx_data_points X rows j v).2) := by
  obtain ⟨hvmem, w, hwmem, hvw⟩ := (mem_splitting_rules_iff X rows j v).mp hv
  obtain ⟨iv, hivrows, hivX⟩ := (mem_colValues X rows j v).mp hvmem
  obtain ⟨iw, hiwrows, hiwX⟩ := (mem_colValues X rows j w).mp hwmem
  simp only [BaseBART.get_new_idx_data_points]
  refine ⟨List.filter_append_perm _ rows, ?_, ?_, ?_, ?_, ?_⟩
  · intro i hiL hiR
    have h1 := (List.mem_filter.mp hiL).2
    have h2 := (List.mem_filter.mp hiR).2
    rw [h1] at h2
    exact absurd h2 (by simp)
  · have hivmem : iv ∈ rows.filter (fun i => fle (X i j) v) :=
      List.mem_filter.mpr ⟨hivrows, by rw [hivX]; simp [fle]⟩
    exact List.ne_nil_of_mem hivmem
  · have hiwmem : iw ∈ rows.filter (fun i => !(fle (X i j) v)) :=
      List.mem_filter.mpr ⟨hiwrows, by
        rw [hiwX]
        simp only [fle, Bool.not_eq_eq_eq_not, Bool.not_true,
          decide_eq_false_iff_not]
        exact not_le.mpr hvw⟩
    exact List.ne_nil_of_mem hiwmem
  · intro i
    exact List.mem_filter
  · intro i hirows hnan
    exact List.mem_filter.mpr ⟨hirows, by rw [hnan]; rfl⟩

/-- Claim C1 witness: a concrete two-row, one-predictor instance. -/
theorem C1_grow_partition_witness :
    (0 ∈ BaseBART.get_available_predictors (fun (i _ : ℕ) => some ((i : ℤ))) 1 [0, 1]) ∧
    ((0 : ℤ) ∈ BaseBART.get_available_splitting_rules
        (fun (i _ : ℕ) => some ((i : ℤ))) [0, 1] 0) ∧
    (List.Perm ((BaseBART.get_new_idx_data_points
          (fun (i _ : ℕ) => some ((i : ℤ))) [0, 1] 0 0).1 ++
        (BaseBART.get_new_idx_data_points
          (fun (i _ : ℕ) => some ((i : ℤ))) [0, 1] 0 0).2) [0, 1] ∧
      (∀ i, i ∈ (BaseBART.get_new_idx_data_points
          (fun (i _ : ℕ) => some ((i : ℤ))) [0, 1] 0 0).1 →
        i ∉ (BaseBART.get_new_idx_data_points
          (fun (i _ : ℕ) => some ((i : ℤ))) [0, 1] 0 0).2) ∧
      (BaseBART.get_new_idx_data_points
          (fun (i _ : ℕ) => some ((i : ℤ))) [0, 1] 0 0).1 ≠ [] ∧
      (BaseBART.get_new_idx_data_points
          (fun (i _ : ℕ) => some ((i : ℤ))) [0, 1] 0 0).2 ≠ [] ∧
      (∀ i, i ∈ (BaseBART.get_new_idx_data_points
          (fun (i _ : ℕ) => some ((i : ℤ))) [0, 1] 0 0).1 ↔
        i ∈ [0, 1] ∧ fle ((fun (i _ : ℕ) => some ((i : ℤ))) i 0) 0 = true) ∧
      (∀ i ∈ [0, 1], (fun (i _ : ℕ) => some ((i : ℤ))) i 0 = Option.none →
        i ∈ (BaseBART.get_new_idx_data_points
          (fun (i _ : ℕ) => some ((i : ℤ))) [0, 1] 0 0).2)) :=
  ⟨by decide, by decide,
    C1_grow_partition ℤ (fun (i _ : ℕ) => some ((i : ℤ))) 1 [0, 1] 0 0
      (by decide) (by decide)⟩

/-- Claim C2: with Y_max distinct from Y_min, un_transform_Y exactly
inverts transform_Y on every input value y, for each transform mode
(exact affine arithmetic). -/
theorem C2_transform_roundtrip (t : Transform) (Y : List ℚ)
    (hmm : listMin Y ≠ listMax Y) (y : ℚ) :
    BaseBART.un_transform_Y t (listMin Y) (listMax Y)
      (BaseBART.transform_Y t (listMin Y) (listMax Y) y) = y := by
  have hd : listMax Y - listMin Y ≠ 0 := sub_ne_zero.mpr (Ne.symm hmm)
  cases t with
  | noTransform => rfl
  | regression =>
      unfold BaseBART.un_transform_Y BaseBART.transform_Y halfRange
      field_simp
      ring
  | classification =>
      unfold BaseBART.un_transform_Y BaseBART.transform_Y halfRange
      field_simp
      ring

/-- Claim C2 witness: Y = [0, 2] in regression mode, at the unobserved
value y = 5. -/
theorem C2_transform_roundtrip_witness :
    listMin [0, 2] ≠ listMax [0, 2] ∧
    BaseBART.un_transform_Y Transform.regression (listMin [0, 2]) (listMax [0, 2])
      (BaseBART.transform_Y Transform.regression (listMin [0, 2])
        (listMax [0, 2]) 5) = 5 :=
  ⟨by norm_num [listMin, listMax, List.foldl, min_def, max_def],
   C2_transform_roundtrip Transform.regression [0, 2]
     (by norm_num [listMin, listMax, List.foldl, min_def, max_def]) 5⟩

/-- Claim C3 counterexample: with transform None, transform_Y returns Y
unchanged, so for Y = [10, 11] (half_range = 1/2) the transformed values
do not lie in [-half_range, half_range]. -/
theorem C3_counterexample :
    ¬ (∀ y ∈ [(10 : ℚ), 11],
        -(halfRange Transform.noTransform (listMin [(10 : ℚ), 11])
            (listMax [(10 : ℚ), 11])) ≤
          BaseBART.transform_Y Transform.noTransform (listMin [(10 : ℚ), 11])
            (listMax [(10 : ℚ), 11]) y ∧
        BaseBART.transform_Y Transform.noTransform (listMin [(10 : ℚ), 11])
            (listMax [(10 : ℚ), 11]) y ≤
          halfRange Transform.noTransform (listMin [(10 : ℚ), 11])
            (listMax [(10 : ℚ), 11])) := by
  intro h
  have hb := (h 10 (by simp)).2
  norm_num [BaseBART.transform_Y, halfRange, listMin, listMax, List.foldl,
    min_def, max_def] at hb

/-- Claim C3 (amended): for the regression and classification modes (where
the affine rescaling is actually applied) and Y_max distinct from Y_min,
every transformed element of Y lies within [-half_range, half_range].
For mode None the code returns Y unchanged, so the bound fails there. -/
theorem C3_transform_bounded (t : Transform) (ht : t ≠ Transform.noTransform)
    (Y : List ℚ) (hmm : listMin Y ≠ listMax Y) (y : ℚ) (hy : y ∈ Y) :
    -(halfRange t (listMin Y) (listMax Y)) ≤
        BaseBART.transform_Y t (listMin Y) (listMax Y) y ∧
      BaseBART.transform_Y t (listMin Y) (listMax Y) y ≤
        halfRange t (listMin Y) (listMax Y) := by
  have hmin := listMin_le Y y hy
  have hmax := le_listMax Y y hy
  have hlt : listMin Y < listMax Y := lt_of_le_of_ne (le_trans hmin hmax) hmm
  have hdpos : (0 : ℚ) < listMax Y - listMin Y := by linarith
  have hh : (0 : ℚ) < halfRange t (listMin Y) (listMax Y) := by
    cases t with
    | noTransform => exact absurd rfl ht
    | regression => norm_num [halfRange]
    | classification => norm_num [halfRange]
  have hr0 : (0 : ℚ) ≤ (y - listMin Y) / (listMax Y - listMin Y) :=
    div_nonneg (by linarith) (le_of_lt hdpos)
  have hr1 : (y - listMin Y) / (listMax Y - listMin Y) ≤ 1 := by
    rw [div_le_one hdpos]
    linarith
  have heq : BaseBART.transform_Y t (listMin Y) (listMax Y) y =
      (y - listMin Y) / (listMax Y - listMin Y) *
          (halfRange t (listMin Y) (listMax Y) * 2)
        - halfRange t (listMin Y) (listMax Y) := by
    cases t with
    | noTransform => exact absurd rfl ht
    | regression => rfl
    | classification => rfl
  rw [heq]
  constructor
  · have hnn : (0 : ℚ) ≤ (y - listMin Y) / (listMax Y - listMin Y) *
        (halfRange t (listMin Y) (listMax Y) * 2) :=
      mul_nonneg hr0 (by linarith)
    linarith
  · have hub : (y - listMin Y) / (listMax Y - listMin Y) *
        (halfRange t (listMin Y) (listMax Y) * 2) ≤
          1 * (halfRange t (listMin Y) (listMax Y) * 2) :=
      mul_le_mul_of_nonneg_right hr1 (by linarith)
    linarith

/-- Claim C3 witness: regression mode with Y = [0, 2] at the element 2. -/
theorem C3_transform_bounded_witness :
    Transform.regression ≠ Transform.noTransform ∧
    listMin [0, 2] ≠ listMax [0, 2] ∧
    (2 : ℚ) ∈ [(0 : ℚ), 2] ∧
    (-(halfRange Transform.regression (listMin [0, 2]) (listMax [0, 2])) ≤
        BaseBART.transform_Y Transform.regression (listMin [0, 2])
          (listMax [0, 2]) 2 ∧
      BaseBART.transform_Y Transform.regression (listMin [0, 2])
          (listMax [0, 2]) 2 ≤
        halfRange Transform.regression (listMin [0, 2]) (listMax [0, 2])) :=
  ⟨by decide,
   by norm_num [listMin, listMax, List.foldl, min_def, max_def],
   by norm_num,
   C3_transform_bounded Transform.regression (by decide) [0, 2]
     (by norm_num [listMin, listMax, List.foldl, min_def, max_def]) 2
     (by norm_num)⟩

/-- Claim C5 counterexample: with lower = -2, upper = 0 and cached base
uniform u = 3/4, sample computes int(-1/2), which Python truncates toward
zero, giving 0: that is not floor(-1/2) = -1, and it does not lie in the
half-open interval [-2, 0) since 0 < 0 fails. -/
theorem C5_counterexample :
    (DUSampler.sample ⟨5, [3/4], fun _ => 0, 0⟩ (-2) 0).map Prod.fst =
        some 0 ∧
    ⌊((-2 : ℤ) : ℚ) + (((0 : ℤ) : ℚ) - ((-2 : ℤ) : ℚ)) * (3/4)⌋ = -1 ∧
    ¬ ((0 : ℤ) < (0 : ℤ)) := by
  have harg : ((-2 : ℤ) : ℚ) + (((0 : ℤ) : ℚ) - ((-2 : ℤ) : ℚ)) * (3/4) =
      -1/2 := by norm_num
  refine ⟨?_, ?_, by decide⟩
  · have hval : duSampleValue (-2) 0 (3/4) = 0 := by
      unfold duSampleValue pyInt
      rw [harg, if_pos (by norm_num)]
      rw [Int.ceil_eq_iff]
      norm_num
    unfold DUSampler.sample DUSampler.pop_source
    simp [hval]
  · rw [harg, Int.floor_eq_iff]
    norm_num

/-- Claim C5 (amended): for 0 <= lower < upper and a cached base uniform
u in [0, 1), sample pops u and returns floor(lower + (upper - lower)*u),
which lies in [lower, upper).  (For a negative argument, int() truncates
toward zero instead of flooring, so the original claim fails for negative
lower; see the counterexample.) -/
theorem C5_sample_floor (s : DUSampler) (c : List ℚ) (u : ℚ)
    (lower upper : ℤ) (hcache : s.cache = c ++ [u])
    (hu0 : 0 ≤ u) (hu1 : u < 1) (hl : 0 ≤ lower) (hlu : lower < upper) :
    (s.sample lower upper).map Prod.fst =
      some ⌊(lower : ℚ) + ((upper : ℚ) - (lower : ℚ)) * u⌋ ∧
    lower ≤ ⌊(lower : ℚ) + ((upper : ℚ) - (lower : ℚ)) * u⌋ ∧
    ⌊(lower : ℚ) + ((upper : ℚ) - (lower : ℚ)) * u⌋ < upper := by
  have hspec := duSampleValue_spec lower upper u hl hlu hu0 hu1
  have hemp : s.cache.isEmpty = false := by
    rw [hcache]
    simp
  refine ⟨?_, hspec.1 ▸ hspec.2.1, hspec.1 ▸ hspec.2.2⟩
  have hpop : s.pop_source = s := by
    unfold DUSampler.pop_source
    rw [hemp]
    rfl
  have hlast : s.pop_source.cache.getLast? = some u := by
    rw [hpop, hcache]
    exact List.getLast?_concat c
  unfold DUSampler.sample
  rw [hlast]
  simp [hspec.1]

/-- Claim C5 witness: lower = 0, upper = 4, cached u = 0. -/
theorem C5_sample_floor_witness :
    (DUSampler.sample ⟨3, [0], fun _ => 0, 0⟩ 0 4).map Prod.fst =
      some ⌊((0 : ℤ) : ℚ) + (((4 : ℤ) : ℚ) - ((0 : ℤ) : ℚ)) * 0⌋ ∧
    (0 : ℤ) ≤ ⌊((0 : ℤ) : ℚ) + (((4 : ℤ) : ℚ) - ((0 : ℤ) : ℚ)) * 0⌋ ∧
    ⌊((0 : ℤ) : ℚ) + (((4 : ℤ) : ℚ) - ((0 : ℤ) : ℚ)) * 0⌋ < 4 :=
  C5_sample_floor ⟨3, [0], fun _ => 0, 0⟩ [] 0 0 4 rfl le_rfl zero_lt_one
    le_rfl (by decide)

/-- Claim C4 counterexample: with valid base parameters and nu = 2 (which
violates nu >= 3.0), ConjugateBART raises a parameter error, but only
after super().__init__ has allocated the samplers and the initial trees:
an allocation strictly precedes the raise in the constructor trace. -/
theorem C4_counterexample :
    hasRaise (ConjugateBART.init_trace
      ⟨⟨1, 1, 1, 1/2, 2, TreeSamplerArg.growPrune, some Transform.noTransform⟩,
        2, 1/2, 2⟩) = true ∧
    allocBeforeRaise (ConjugateBART.init_trace
      ⟨⟨1, 1, 1, 1/2, 2, TreeSamplerArg.growPrune, some Transform.noTransform⟩,
        2, 1/2, 2⟩) = true := by
  have hbase : firstBaseViolation
      ⟨1, 1, 1, 1/2, 2, TreeSamplerArg.growPrune, some Transform.noTransform⟩ =
        Option.none := by
    norm_num [firstBaseViolation]
    decide
  have hconj : firstConjViolation
      ⟨⟨1, 1, 1, 1/2, 2, TreeSamplerArg.growPrune, some Transform.noTransform⟩,
        2, 1/2, 2⟩ = some BARTParamsError.nuLessThanThree := by
    norm_num [firstConjViolation]
  unfold ConjugateBART.init_trace
  rw [hbase, hconj]
  exact ⟨rfl, rfl⟩

/-- Claim C4 (amended): violations of the base-class parameter rules raise
before any tree or sampler-cache allocation (the constructor trace is just
the raise), but the conjugate-variant rules (nu, q, k) are only checked
after super().__init__ has completed, so their violations raise after the
samplers and trees have been allocated. -/
theorem C4_validation_order (p : ConjParams) (e : BARTParamsError) :
    (firstBaseViolation p.base = some e →
      ConjugateBART.init_trace p = [InitAction.raiseError e] ∧
      BaseBART.init_trace p.base = [InitAction.raiseError e]) ∧
    (firstBaseViolation p.base = Option.none → firstConjViolation p = some e →
      ConjugateBART.init_trace p =
        [InitAction.allocSamplers, InitAction.allocTrees,
          InitAction.raiseError e]) := by
  constructor
  · intro h
    constructor
    · unfold ConjugateBART.init_trace
      rw [h]
    · unfold BaseBART.init_trace
      rw [h]
  · intro h1 h2
    unfold ConjugateBART.init_trace
    rw [h1, h2]
    rfl

/-- Claim C4 witness: the amended theorem applied to both a base violation
(m = 0) and a conjugate violation (nu = 2). -/
theorem C4_validation_order_witness :
    ConjugateBART.init_trace
        ⟨⟨1, 1, 0, 1/2, 2, TreeSamplerArg.growPrune, some Transform.noTransform⟩,
          3, 1/2, 2⟩ = [InitAction.raiseError BARTParamsError.mNotPositive] ∧
    ConjugateBART.init_trace
        ⟨⟨1, 1, 1, 1/2, 2, TreeSamplerArg.growPrune, some Transform.noTransform⟩,
          2, 1/2, 2⟩ =
      [InitAction.allocSamplers, InitAction.allocTrees,
        InitAction.raiseError BARTParamsError.nuLessThanThree] :=
  ⟨((C4_validation_order
      ⟨⟨1, 1, 0, 1/2, 2, TreeSamplerArg.growPrune, some Transform.noTransform⟩,
        3, 1/2, 2⟩ BARTParamsError.mNotPositive).1
      (by norm_num [firstBaseViolation])).1,
   (C4_validation_order
      ⟨⟨1, 1, 1, 1/2, 2, TreeSamplerArg.growPrune, some Transform.noTransform⟩,
        2, 1/2, 2⟩ BARTParamsError.nuLessThanThree).2
      (by norm_num [firstBaseViolation]; decide)
      (by norm_num [firstConjViolation])⟩

/-- Claim C6: get_available_predictors returns exactly the columns j whose
NaN-stripped restriction to the rows retains at least two distinct values
(so a constant predictor is excluded), in increasing column order. -/
theorem C6_available_predictors (α : Type) [LinearOrder α]
    (X : ℕ → ℕ → Option α) (P : ℕ) (rows : List ℕ) :
    (∀ j, j ∈ BaseBART.get_available_predictors X P rows ↔
      j < P ∧ ∃ a ∈ colValues X rows j, ∃ b ∈ colValues X rows j, a ≠ b) ∧
    (BaseBART.get_available_predictors X P rows).Pairwise (· < ·) := by
  constructor
  · intro j
    rw [mem_get_available_predictors, hasAdjacentDiff_iff]
  · exact List.Pairwise.filter _ (List.pairwise_lt_range P)

/-- Claim C6 witness: one increasing and (implicitly) no constant column,
on two rows. -/
theorem C6_available_predictors_witness :
    (0 ∈ BaseBART.get_available_predictors
        (fun (i _ : ℕ) => some ((i : ℤ))) 1 [0, 1] ↔
      0 < 1 ∧ ∃ a ∈ colValues (fun (i _ : ℕ) => some ((i : ℤ))) [0, 1] 0,
        ∃ b ∈ colValues (fun (i _ : ℕ) => some ((i : ℤ))) [0, 1] 0, a ≠ b) ∧
    (BaseBART.get_available_predictors
        (fun (i _ : ℕ) => some ((i : ℤ))) 1 [0, 1]).Pairwise (· < ·) :=
  ⟨(C6_available_predictors ℤ (fun (i _ : ℕ) => some ((i : ℤ))) 1 [0, 1]).1 0,
   (C6_available_predictors ℤ (fun (i _ : ℕ) => some ((i : ℤ))) 1 [0, 1]).2⟩

/-- Claim C7: get_available_splitting_rules returns a sorted
duplicate-free list containing exactly the NaN-stripped column values
that are strictly below some other column value — i.e. the sorted
distinct values with the maximum excluded; in particular the maximum is
never a candidate threshold. -/
theorem C7_available_splitting_rules (α : Type) [LinearOrder α]
    (X : ℕ → ℕ → Option α) (rows : List ℕ) (j : ℕ) :
    (BaseBART.get_available_splitting_rules X rows j).Sorted (· ≤ ·) ∧
    (BaseBART.get_available_splitting_rules X rows j).Nodup ∧
    (∀ v, v ∈ BaseBART.get_available_splitting_rules X rows j ↔
      v ∈ colValues X rows j ∧ ∃ w ∈ colValues X rows j, v < w) := by
  refine ⟨?_, ?_, fun v => mem_splitting_rules_iff X rows j v⟩
  · exact List.Pairwise.sublist (List.dropLast_sublist _) (sortedUnique_sorted _)
  · exact List.Nodup.sublist (List.dropLast_sublist _) (sortedUnique_nodup _)

/-- Claim C7 witness: the two-valued increasing column. -/
theorem C7_available_splitting_rules_witness :
    (BaseBART.get_available_splitting_rules
        (fun (i _ : ℕ) => some ((i : ℤ))) [0, 1] 0).Sorted (· ≤ ·) ∧
    (BaseBART.get_available_splitting_rules
        (fun (i _ : ℕ) => some ((i : ℤ))) [0, 1] 0).Nodup ∧
    ((0 : ℤ) ∈ BaseBART.get_available_splitting_rules
        (fun (i _ : ℕ) => some ((i : ℤ))) [0, 1] 0 ↔
      (0 : ℤ) ∈ colValues (fun (i _ : ℕ) => some ((i : ℤ))) [0, 1] 0 ∧
        ∃ w ∈ colValues (fun (i _ : ℕ) => some ((i : ℤ))) [0, 1] 0, (0 : ℤ) < w) :=
  ⟨(C7_available_splitting_rules ℤ (fun (i _ : ℕ) => some ((i : ℤ))) [0, 1] 0).1,
   (C7_available_splitting_rules ℤ (fun (i _ : ℕ) => some ((i : ℤ))) [0, 1] 0).2.1,
   (C7_available_splitting_rules ℤ (fun (i _ : ℕ) => some ((i : ℤ))) [0, 1] 0).2.2 0⟩

/-- Claim C8: when the target leaf admits no available predictor,
grow_tree returns the failure value false (not an exception) and performs
no mutation: the tree, the sampler state, and the draw_leaf_value state
are all returned unchanged. -/
theorem C8_ungrowable_no_mutation (α β σ : Type) [LinearOrder α]
    (draw_leaf_value : Tree α β → List ℕ → σ → β × σ)
    (X : ℕ → ℕ → Option α) (P : ℕ) (tree : Tree α β) (idx : ℕ)
    (du : DUSampler) (extra : σ) (node : Node α β)
    (hnode : tree.get_node idx = some node)
    (hpreds : BaseBART.get_available_predictors X P node.idx_data_points = []) :
    BaseBART.grow_tree draw_leaf_value X P tree idx du extra =
      some (false, tree, du, extra) := by
  unfold BaseBART.grow_tree
  rw [hnode]
  simp [hpreds]

/-- Claim C8 witness: a constant single column over two rows. -/
theorem C8_ungrowable_no_mutation_witness :
    Tree.get_node (⟨[(0, Node.leaf (0 : ℤ) [0, 1])]⟩ : Tree ℤ ℤ) 0 =
      some (Node.leaf (0 : ℤ) [0, 1]) ∧
    BaseBART.get_available_predictors (fun (_ _ : ℕ) => some ((0 : ℤ))) 1
      (Node.leaf (0 : ℤ) [0, 1] : Node ℤ ℤ).idx_data_points = [] ∧
    BaseBART.grow_tree (fun (_ : Tree ℤ ℤ) (_ : List ℕ) (s : Unit) => ((0 : ℤ), s))
        (fun (_ _ : ℕ) => some ((0 : ℤ))) 1
        (⟨[(0, Node.leaf (0 : ℤ) [0, 1])]⟩ : Tree ℤ ℤ) 0
        ⟨1, [], fun _ => 0, 0⟩ () =
      some (false, (⟨[(0, Node.leaf (0 : ℤ) [0, 1])]⟩ : Tree ℤ ℤ),
        (⟨1, [], fun _ => 0, 0⟩ : DUSampler), ()) :=
  ⟨by decide, by decide,
   C8_ungrowable_no_mutation ℤ ℤ Unit
     (fun (_ : Tree ℤ ℤ) (_ : List ℕ) (s : Unit) => ((0 : ℤ), s))
     (fun (_ _ : ℕ) => some ((0 : ℤ))) 1
     (⟨[(0, Node.leaf (0 : ℤ) [0, 1])]⟩ : Tree ℤ ℤ) 0
     ⟨1, [], fun _ => 0, 0⟩ () (Node.leaf (0 : ℤ) [0, 1])
     (by decide) (by decide)⟩

/-- Claim C9: ConjugateBART.draw_leaf_value returns posterior_mean +
z*sqrt(posterior_var/m), where with prior_var = prior_sigma_mu^2 =
(half_range/(k*sqrt m))^2, likelihood_var = sigma^2/|R| and
likelihood_mean the mean of the residuals over R: posterior_var =
1/(1/prior_var + 1/likelihood_var) and posterior_mean = likelihood_mean *
prior_var/(likelihood_var + prior_var); the division of posterior_var by
m in the square root is the intentional extra ensemble shrinkage.  The
second conjunct identifies the prior variance in closed form. -/
theorem C9_conjugate_draw (half_range k current_sigma : ℝ) (m : ℕ)
    (R_j : ℕ → ℝ) (idx_data_points : List ℕ) (z : ℝ)
    (hrows : idx_data_points ≠ []) (hm : 0 < m) :
    ConjugateBART.draw_leaf_value
        (ConjugateBART.prior_sigma_mu half_range k m)
        current_sigma m R_j idx_data_points z =
      conjDrawLeafValueSpec half_range k current_sigma m R_j
        idx_data_points z ∧
    ConjugateBART.prior_sigma_mu half_range k m ^ 2 =
      half_range ^ 2 / (k ^ 2 * m) := by
  constructor
  · unfold ConjugateBART.draw_leaf_value conjDrawLeafValueSpec
      ConjugateBART.prior_sigma_mu
    simp only [mul_div_assoc]
  · unfold ConjugateBART.prior_sigma_mu
    rw [div_pow, mul_pow, Real.sq_sqrt (Nat.cast_nonneg m)]

/-- Claim C9 witness: one row, unit hyperparameters. -/
theorem C9_conjugate_draw_witness :
    ConjugateBART.draw_leaf_value (ConjugateBART.prior_sigma_mu 1 1 1) 1 1
        (fun _ => 0) [0] 0 =
      conjDrawLeafValueSpec 1 1 1 1 (fun _ => 0) [0] 0 ∧
    ConjugateBART.prior_sigma_mu 1 1 1 ^ 2 = 1 ^ 2 / (1 ^ 2 * (1 : ℕ)) :=
  C9_conjugate_draw 1 1 1 1 (fun _ => 0) [0] 0 (by decide) (by decide)

/-- Claim C10: once the predictor-availability check passes, grow_tree
cannot fail: every available predictor has at least one splitting rule,
and with well-formed sampler state (all cached and stream uniforms in
[0, 1), positive cache size) both uniform index draws are in bounds, so
grow_tree returns success. -/
theorem C10_grow_tree_success (α β σ : Type) [LinearOrder α]
    (draw_leaf_value : Tree α β → List ℕ → σ → β × σ)
    (X : ℕ → ℕ → Option α) (P : ℕ) (tree : Tree α β) (idx : ℕ)
    (du : DUSampler) (extra : σ) (node : Node α β)
    (hnode : tree.get_node idx = some node)
    (hpreds : BaseBART.get_available_predictors X P node.idx_data_points ≠ [])
    (hcache : ∀ u ∈ du.cache, 0 ≤ u ∧ u < 1)
    (hsup : ∀ t, 0 ≤ du.supply t ∧ du.supply t < 1)
    (hsize : 0 < du.cacheSize) :
    (∀ j ∈ BaseBART.get_available_predictors X P node.idx_data_points,
      BaseBART.get_available_splitting_rules X node.idx_data_points j ≠ []) ∧
    ∃ t2 du2 extra2,
      BaseBART.grow_tree draw_leaf_value X P tree idx du extra =
        some (true, t2, du2, extra2) := by
  refine ⟨fun j hj => splitting_rules_ne_nil X P node.idx_data_points j hj, ?_⟩
  have hlen1 : (0 : ℤ) <
      ((BaseBART.get_available_predictors X P node.idx_data_points).length : ℤ) := by
    exact_mod_cast List.length_pos.mpr hpreds
  obtain ⟨i1, du1, hs1, hi10, hi1lt, hc1, hsup1, hsize1⟩ :=
    DUSampler.sample_wf du _ hcache hsup hsize hlen1
  obtain ⟨selPred, hget1, hmem1⟩ := pyGet_mem _ i1 hi10 hi1lt
  have hrules := splitting_rules_ne_nil X P node.idx_data_points selPred hmem1
  have hlen2 : (0 : ℤ) <
      ((BaseBART.get_available_splitting_rules X node.idx_data_points
          selPred).length : ℤ) := by
    exact_mod_cast List.length_pos.mpr hrules
  have hsup1f : ∀ t, 0 ≤ du1.supply t ∧ du1.supply t < 1 := by
    rw [hsup1]
    exact hsup
  have hsize1f : 0 < du1.cacheSize := by
    rw [hsize1]
    exact hsize
  obtain ⟨i2, du2, hs2, hi20, hi2lt, hc2, hsup2, hsize2⟩ :=
    DUSampler.sample_wf du1 _ hc1 hsup1f hsize1f hlen2
  obtain ⟨splitVal, hget2, hmem2⟩ := pyGet_mem _ i2 hi20 hi2lt
  have hempf : (BaseBART.get_available_predictors X P
      node.idx_data_points).isEmpty = false := by
    cases h : (BaseBART.get_available_predictors X P
        node.idx_data_points).isEmpty
    · rfl
    · exact absurd (List.isEmpty_iff.mp h) hpreds
  refine ⟨Tree.grow_tree tree idx
      (Node.split selPred splitVal node.idx_data_points)
      (Node.leaf (draw_leaf_value tree
          (BaseBART.get_new_idx_data_points X node.idx_data_points selPred
            splitVal).1 extra).1
        (BaseBART.get_new_idx_data_points X node.idx_data_points selPred
          splitVal).1)
      (Node.leaf (draw_leaf_value tree
          (BaseBART.get_new_idx_data_points X node.idx_data_points selPred
            splitVal).2
          (draw_leaf_value tree
            (BaseBART.get_new_idx_data_points X node.idx_data_points selPred
              splitVal).1 extra).2).1
        (BaseBART.get_new_idx_data_points X node.idx_data_points selPred
          splitVal).2),
    du2,
    (draw_leaf_value tree
      (BaseBART.get_new_idx_data_points X node.idx_data_points selPred
        splitVal).2
      (draw_leaf_value tree
        (BaseBART.get_new_idx_data_points X node.idx_data_points selPred
          splitVal).1 extra).2).2, ?_⟩
  unfold BaseBART.grow_tree
  rw [hnode]
  simp only [hempf, Bool.false_eq_true, if_false, hs1, hget1, hs2, hget2]

/-- Claim C10 witness: a strictly increasing single column over two rows,
an empty cache (forcing one refresh) and the constant-zero stream. -/
theorem C10_grow_tree_success_witness :
    (∀ j ∈ BaseBART.get_available_predictors (fun (i _ : ℕ) => some ((i : ℤ))) 1
        (Node.leaf (0 : ℤ) [0, 1] : Node ℤ ℤ).idx_data_points,
      BaseBART.get_available_splitting_rules (fun (i _ : ℕ) => some ((i : ℤ)))
        (Node.leaf (0 : ℤ) [0, 1] : Node ℤ ℤ).idx_data_points j ≠ []) ∧
    ∃ t2 du2 extra2,
      BaseBART.grow_tree
          (fun (_ : Tree ℤ ℤ) (_ : List ℕ) (s : Unit) => ((0 : ℤ), s))
          (fun (i _ : ℕ) => some ((i : ℤ))) 1
          (⟨[(0, Node.leaf (0 : ℤ) [0, 1])]⟩ : Tree ℤ ℤ) 0
          ⟨1, [], fun _ => 0, 0⟩ () =
        some (true, t2, du2, extra2) :=
  C10_grow_tree_success ℤ ℤ Unit
    (fun (_ : Tree ℤ ℤ) (_ : List ℕ) (s : Unit) => ((0 : ℤ), s))
    (fun (i _ : ℕ) => some ((i : ℤ))) 1
    (⟨[(0, Node.leaf (0 : ℤ) [0, 1])]⟩ : Tree ℤ ℤ) 0
    ⟨1, [], fun _ => 0, 0⟩ () (Node.leaf (0 : ℤ) [0, 1])
    (by decide) (by decide)
    (by intro u hu; cases hu)
    (fun _ => ⟨le_rfl, zero_lt_one⟩)
    (by decide)

end PyMC3Bart
